import Mathlib

/-!
Verification of the song-list and player-state logic of a small client-side
music player (upload, reorder via drag-and-drop, inline rename, single shared
playback engine).  The definitions below are shallow embeddings of the event
handlers in `src/App.tsx` and `src/components/SongCard.tsx`:
`handlePlay`, `handlePause`, `handleSeek`, `handleRename`, `handleSaveName`,
`handleFilesAdded`, `handleDragEnd`, and the audio-element listeners
`onTimeUpdate`, `onLoadedMetadata`, `onEnded`.  Times and durations (floats in
the source) are embedded as rationals; the handlers only ever copy them, never
compute with them.
-/

namespace FelizNatal

/-- An uploaded file.  The handlers only ever read its `name`
(`file.name` in `handleFilesAdded`); the binary payload is irrelevant here. -/
structure File where
  name : String
deriving DecidableEq

/-- `Song` from `src/types.ts`. -/
structure Song where
  id : String
  name : String
  url : String
  file : File
deriving DecidableEq

/-- `PlayerState` from `src/types.ts`; `currentSongId : string | null`
becomes `Option String`. -/
structure PlayerState where
  isPlaying : Bool
  currentSongId : Option String
  currentTime : ℚ
  duration : ℚ
deriving DecidableEq

/-- The single shared audio element (`audioRef` in `src/App.tsx`), reduced to
the two fields the handlers write: its source and whether it is paused
(`.src = …`, `.play()`, `.pause()`).  The element-internal playback position
written by `handleSeek` is engine state and is not modelled. -/
structure AudioState where
  src : String
  paused : Bool
deriving DecidableEq

/-- The whole mutable state of `App`: the song list, the player record and the
shared audio element. -/
structure AppState where
  songs : List Song
  player : PlayerState
  audio : AudioState
deriving DecidableEq

/-- The initial `playerState` passed to `useState` in `src/App.tsx`. -/
def initialPlayer : PlayerState :=
  { isPlaying := false, currentSongId := none, currentTime := 0, duration := 0 }

/-- A fresh `new Audio()`: empty source, paused. -/
def initialAudio : AudioState :=
  { src := "", paused := true }

/-- `handlePlay` in `src/App.tsx`: look the id up in the song list (bail out if
absent); if it is already the current song, just resume; otherwise switch the
audio source to that song's url, start playback, and set
`currentSongId := id`, `isPlaying := true`, `currentTime := 0`. -/
def handlePlay (id : String) (s : AppState) : AppState :=
  match s.songs.find? (fun song => song.id == id) with
  | none => s
  | some songToPlay =>
    if s.player.currentSongId = some id then
      { s with audio := { s.audio with paused := false },
               player := { s.player with isPlaying := true } }
    else
      { s with audio := { src := songToPlay.url, paused := false },
               player := { s.player with currentSongId := some id,
                                         isPlaying := true,
                                         currentTime := 0 } }

/-- `handlePause` in `src/App.tsx`. -/
def handlePause (s : AppState) : AppState :=
  { s with audio := { s.audio with paused := true },
           player := { s.player with isPlaying := false } }

/-- `handleSeek` in `src/App.tsx`: mirror the requested time into
`currentTime` (the write to the audio element's own position is engine
state, not modelled). -/
def handleSeek (time : ℚ) (s : AppState) : AppState :=
  { s with player := { s.player with currentTime := time } }

/-- `handleRename` in `src/App.tsx`: map over the list, replacing the name of
the song whose id matches, leaving every other song untouched. -/
def handleRename (id : String) (newName : String) (songs : List Song) : List Song :=
  songs.map (fun song => if song.id == id then { song with name := newName } else song)

/-- Whitespace as recognised by JavaScript's `String.prototype.trim`,
restricted to the characters that can realistically occur here: space, tab,
line feed, carriage return, vertical tab, form feed and no-break space
(the exotic Unicode space separators are omitted). -/
def isJsWhitespace (c : Char) : Bool :=
  c == ' ' || c == '\t' || c == '\n' || c == '\r' || c == '\x0b' || c == '\x0c' ||
    c == '\xa0'

/-- JavaScript's `editName.trim()`: drop whitespace from both ends. -/
def jsTrim (s : String) : String :=
  ⟨((s.data.dropWhile isJsWhitespace).reverse.dropWhile isJsWhitespace).reverse⟩

/-- `handleSaveName` in `src/components/SongCard.tsx`: if the edited name is
truthy after trimming (i.e. trims to a non-empty string), call `onRename`
with the RAW edited name; otherwise revert and change nothing.  This is the
spec's `renameSong` pipeline. -/
def handleSaveName (songId : String) (editName : String) (songs : List Song) : List Song :=
  if jsTrim editName ≠ "" then handleRename songId editName songs else songs

/-- The `timeupdate` listener in `src/App.tsx`: mirror the engine's position
into `currentTime`. -/
def onTimeUpdate (t : ℚ) (s : AppState) : AppState :=
  { s with player := { s.player with currentTime := t } }

/-- The `loadedmetadata` listener in `src/App.tsx`: record the engine's
reported duration. -/
def onLoadedMetadata (d : ℚ) (s : AppState) : AppState :=
  { s with player := { s.player with duration := d } }

/-- The `ended` listener in `src/App.tsx`: stop and rewind the visual state,
touching nothing else. -/
def onEnded (s : AppState) : AppState :=
  { s with player := { s.player with isPlaying := false, currentTime := 0 } }

/-- The extension-stripping in `handleFilesAdded`:
`file.name.replace(/\.[^/.]+$/, "")`.  The regular expression removes a final
`.xyz` segment where `xyz` is non-empty and contains neither `.` nor `/`;
if the name does not end in such a segment it is left unchanged. -/
def stripExtChars (cs : List Char) : List Char :=
  let rev := cs.reverse
  let ext := rev.takeWhile (fun c => c != '/' && c != '.')
  match rev.drop ext.length with
  | '.' :: rest => if ext.isEmpty then cs else rest.reverse
  | _ => cs

/-- `stripExtChars` lifted to `String`. -/
def stripExt (s : String) : String :=
  ⟨stripExtChars s.data⟩

/-- `handleFilesAdded` in `src/App.tsx`: build one new `Song` per input file —
name is the file name minus its extension, id comes from
`crypto.randomUUID()` and url from `URL.createObjectURL(file)` — and append
them all after the existing songs, preserving input order.  The two browser
APIs are nondeterministic and external; they are embedded as oracles `uuid`
(indexed by the file's position within the call) and `objURL`. -/
def handleFilesAdded (uuid : Nat → String) (objURL : File → String)
    (files : List File) (prev : List Song) : List Song :=
  let newSongs : List Song := files.enum.map (fun p =>
    { id := uuid p.1, name := stripExt p.2.name, url := objURL p.2, file := p.2 })
  prev ++ newSongs

/-- A whole sequence of `handleFilesAdded` calls starting from the empty list;
call `k` draws its ids from `uuid k`. -/
def runAdds (uuid : Nat → Nat → String) (objURL : File → String)
    (batches : List (List File)) : List Song :=
  batches.enum.foldl (fun acc p => handleFilesAdded (uuid p.1) objURL p.2 acc) []

/-- Modelled from the spec: `arrayMove` comes from the external `@dnd-kit`
library, whose source is not part of this repository.  Per the spec
(§4.1 `moveSong`), the element at index `i` is relocated to index `j`,
shifting the intervening elements by one, and the operation is a silent
no-op when an id is absent (absence surfaces here as an out-of-range
index, since `findIdx` returns the length when nothing matches). -/
def arrayMove (items : List Song) (i j : Nat) : List Song :=
  if h : i < items.length ∧ j < items.length then
    (items.eraseIdx i).insertIdx j (items.get ⟨i, h.1⟩)
  else items

/-- `handleDragEnd` in `src/App.tsx`: given the dragged item's id and the id
of the item it was dropped over (`none` when dropped over nothing), reorder
via `arrayMove` of the two ids' indices unless `over` is missing or the two
ids coincide. -/
def handleDragEnd (activeId : String) (over : Option String)
    (items : List Song) : List Song :=
  match over with
  | none => items
  | some overId =>
    if activeId ≠ overId then
      let oldIndex := items.findIdx (fun i => i.id == activeId)
      let newIndex := items.findIdx (fun i => i.id == overId)
      arrayMove items oldIndex newIndex
    else items

/-- The spec's `moveSong(id, targetId)`: a completed drop of `id` onto
`targetId`. -/
def moveSong (id : String) (targetId : String) (items : List Song) : List Song :=
  handleDragEnd id (some targetId) items

/-- Every event that mutates the `App` state: the three player operations, the
three audio-engine notifications, and the three song-list operations. -/
inductive Action where
  | play (id : String)
  | pause
  | seek (t : ℚ)
  | timeUpdate (t : ℚ)
  | loadedMetadata (d : ℚ)
  | ended
  | filesAdded (uuid : Nat → String) (objURL : File → String) (files : List File)
  | saveName (songId : String) (editName : String)
  | dragEnd (activeId : String) (over : Option String)

/-- One run-to-completion event handler dispatch. -/
def step (s : AppState) : Action → AppState
  | .play id => handlePlay id s
  | .pause => handlePause s
  | .seek t => handleSeek t s
  | .timeUpdate t => onTimeUpdate t s
  | .loadedMetadata d => onLoadedMetadata d s
  | .ended => onEnded s
  | .filesAdded uuid objURL files =>
      { s with songs := handleFilesAdded uuid objURL files s.songs }
  | .saveName songId editName =>
      { s with songs := handleSaveName songId editName s.songs }
  | .dragEnd activeId over =>
      { s with songs := handleDragEnd activeId over s.songs }

/-- Process a sequence of events in order. -/
def run (s : AppState) (acts : List Action) : AppState :=
  acts.foldl step s

/-- The state `App` mounts with, over an arbitrary pre-existing song list. -/
def initialState (songs : List Song) : AppState :=
  { songs := songs, player := initialPlayer, audio := initialAudio }

/-! ### Concrete sample data, used by the witnesses below -/

/-- A sample song. -/
def sA : Song := { id := "a", name := "Jingle", url := "blob:a", file := ⟨"Jingle.mp3"⟩ }

/-- A second sample song. -/
def sB : Song := { id := "b", name := "Noite", url := "blob:b", file := ⟨"Noite.mp3"⟩ }

/-- A third sample song. -/
def sC : Song := { id := "c", name := "Sinos", url := "blob:c", file := ⟨"Sinos.mp3"⟩ }

/-- A sample state: three songs, song `a` loaded and playing. -/
def stA : AppState :=
  { songs := [sA, sB, sC],
    player := { isPlaying := true, currentSongId := some "a",
                currentTime := 37, duration := 180 },
    audio := { src := "blob:a", paused := false } }

/-! ### Claims -/

/-- C8: the engine's `ended` notification sets `isPlaying` to `false` and
`currentTime` to `0` while leaving `currentSongId` and `duration`
unchanged, for every state. -/
theorem ended_rewinds_and_stops (s : AppState) :
    (onEnded s).player.isPlaying = false ∧
    (onEnded s).player.currentTime = 0 ∧
    (onEnded s).player.currentSongId = s.player.currentSongId ∧
    (onEnded s).player.duration = s.player.duration :=
  ⟨rfl, rfl, rfl, rfl⟩

/-- C5: the rename pipeline is a no-op when the new name trims to empty, and
also whenever no song in the list carries the requested id. -/
theorem rename_noop_blank_or_missing (songs : List Song) (id newName : String)
    (h : jsTrim newName = "" ∨ ∀ s ∈ songs, s.id ≠ id) :
    handleSaveName id newName songs = songs := by
  rcases h with h | h
  · simp [handleSaveName, h]
  · have hmap : handleRename id newName songs = songs := by
      induction songs with
      | nil => rfl
      | cons a l ih =>
        have ha : ¬ a.id = id := h a (List.mem_cons_self a l)
        have hl := ih (fun s hs => h s (List.mem_cons_of_mem a hs))
        simp only [handleRename, List.map_cons] at hl ⊢
        rw [hl]
        simp [ha]
    unfold handleSaveName
    by_cases ht : jsTrim newName ≠ "" <;> simp [ht, hmap]

/-- Witness for C5 at a concrete input. -/
theorem rename_noop_blank_or_missing_witness :
    handleSaveName "a" "   " [sA] = [sA] :=
  rename_noop_blank_or_missing [sA] "a" "   " (Or.inl rfl)

/-- C4 counterexample: `handleSaveName` stores the raw edited name, so
renaming song `a` to `"  Carol  "` does NOT store the trimmed `"Carol"`;
the stored name keeps its padding. -/
theorem rename_does_not_trim_cex :
    (handleSaveName "a" "  Carol  " [sA]).map Song.name = ["  Carol  "] ∧
    (handleSaveName "a" "  Carol  " [sA]).map Song.name ≠ ["Carol"] := by
  constructor <;> decide

/-- C4 amended: renaming to a name that trims non-empty stores the RAW name,
leading/trailing whitespace included (the trim is only the non-emptiness
test). -/
theorem rename_stores_raw_name (songs : List Song) (id newName : String)
    (h : jsTrim newName ≠ "") :
    (handleSaveName id newName songs).map Song.name =
      songs.map (fun s => if s.id = id then newName else s.name) := by
  unfold handleSaveName handleRename
  rw [if_pos h, List.map_map]
  apply List.map_congr_left
  intro s _
  by_cases hs : s.id = id <;> simp [hs]

/-- Witness for the amended C4 at a concrete input. -/
theorem rename_stores_raw_name_witness :
    (handleSaveName "a" "  Carol  " [sA]).map Song.name =
      [sA].map (fun s => if s.id = "a" then "  Carol  " else s.name) :=
  rename_stores_raw_name [sA] "a" "  Carol  " (by decide)

/-- C7: playing the id that is already current resumes: `isPlaying` becomes
`true` and `currentSongId`, `currentTime`, `duration` and the loaded audio
source are all left unchanged. -/
theorem play_resume_preserves (s : AppState) (id : String)
    (hfound : ∃ song ∈ s.songs, song.id = id)
    (hcur : s.player.currentSongId = some id) :
    (handlePlay id s).player.isPlaying = true ∧
    (handlePlay id s).player.currentSongId = s.player.currentSongId ∧
    (handlePlay id s).player.currentTime = s.player.currentTime ∧
    (handlePlay id s).player.duration = s.player.duration ∧
    (handlePlay id s).audio.src = s.audio.src := by
  obtain ⟨song, hmem, hid⟩ := hfound
  have hsome : (s.songs.find? (fun song => song.id == id)).isSome := by
    rw [List.find?_isSome]
    exact ⟨song, hmem, by simp [hid]⟩
  unfold handlePlay
  cases hfind : s.songs.find? (fun song => song.id == id) with
  | none => rw [hfind] at hsome; simp at hsome
  | some songToPlay =>
    dsimp only
    rw [if_pos hcur]
    exact ⟨rfl, rfl, rfl, rfl, rfl⟩

/-- Witness for C7 at a concrete input. -/
theorem play_resume_preserves_witness :
    (handlePlay "a" stA).player.isPlaying = true ∧
    (handlePlay "a" stA).player.currentSongId = stA.player.currentSongId ∧
    (handlePlay "a" stA).player.currentTime = stA.player.currentTime ∧
    (handlePlay "a" stA).player.duration = stA.player.duration ∧
    (handlePlay "a" stA).audio.src = stA.audio.src :=
  play_resume_preserves stA "a" ⟨sA, by decide, rfl⟩ rfl

/-- C10: switching to a different song leaves `duration` untouched — the old
song's duration survives until the engine's `loadedmetadata` notification
overwrites it. -/
theorem play_switch_keeps_duration (s : AppState) (B : Song) (d : ℚ)
    (hmem : B ∈ s.songs)
    (hcur : s.player.currentSongId ≠ some B.id) :
    (handlePlay B.id s).player.duration = s.player.duration ∧
    (onLoadedMetadata d (handlePlay B.id s)).player.duration = d := by
  refine ⟨?_, rfl⟩
  have hsome : (s.songs.find? (fun song => song.id == B.id)).isSome := by
    rw [List.find?_isSome]
    exact ⟨B, hmem, by simp⟩
  unfold handlePlay
  cases hfind : s.songs.find? (fun song => song.id == B.id) with
  | none => rw [hfind] at hsome
  | some songToPlay =>
    dsimp only
    rw [if_neg hcur]

/-- Witness for C10 at a concrete input. -/
theorem play_switch_keeps_duration_witness :
    (handlePlay "b" stA).player.duration = stA.player.duration ∧
    (onLoadedMetadata 200 (handlePlay "b" stA)).player.duration = 200 := by
  have h := play_switch_keeps_duration stA sB 200 (by decide) (by decide)
  exact h

/-- Helper: when ids are pairwise distinct, `find?` on a song's own id finds
exactly that song. -/
theorem find?_id_of_nodup (songs : List Song) (B : Song) (hmem : B ∈ songs)
    (hnodup : (songs.map Song.id).Nodup) :
    songs.find? (fun song => song.id == B.id) = some B := by
  induction songs with
  | nil => cases hmem
  | cons a l ih =>
    rw [List.find?_cons]
    by_cases ha : a.id = B.id
    · have haB : a = B :=
        List.inj_on_of_nodup_map hnodup (List.mem_cons_self a l) hmem ha
      simp [ha, haB]
    · have hBl : B ∈ l := by
        rcases List.mem_cons.mp hmem with h | h
        · exact absurd (congrArg Song.id h.symm) ha
        · exact h
      have hnl : (l.map Song.id).Nodup := by
        simp only [List.map_cons, List.nodup_cons] at hnodup
        exact hnodup.2
      have ha2 : (a.id == B.id) = false := by simp [ha]
      simp [ha2, ih hBl hnl]

/-- C6: playing a different song (both songs in a list with distinct ids)
switches: `currentSongId` becomes the new id, `isPlaying` is set,
`currentTime` resets to `0` and the engine's source becomes the new song's
url — regardless of the prior position. -/
theorem play_switch_resets (s : AppState) (A B : Song)
    (hA : A ∈ s.songs) (hB : B ∈ s.songs) (hAB : A ≠ B)
    (hnodup : (s.songs.map Song.id).Nodup)
    (hcur : s.player.currentSongId = some A.id) :
    (handlePlay B.id s).player.currentSongId = some B.id ∧
    (handlePlay B.id s).player.isPlaying = true ∧
    (handlePlay B.id s).player.currentTime = 0 ∧
    (handlePlay B.id s).audio.src = B.url := by
  have hid : A.id ≠ B.id := fun h => hAB (List.inj_on_of_nodup_map hnodup hA hB h)
  have hfind := find?_id_of_nodup s.songs B hB hnodup
  have hcur2 : s.player.currentSongId ≠ some B.id := by
    rw [hcur]
    intro h
    exact hid (Option.some.inj h)
  unfold handlePlay
  rw [hfind]
  dsimp only
  rw [if_neg hcur2]
  exact ⟨rfl, rfl, rfl, rfl⟩

/-- Witness for C6 at a concrete input. -/
theorem play_switch_resets_witness :
    (handlePlay sB.id stA).player.currentSongId = some sB.id ∧
    (handlePlay sB.id stA).player.isPlaying = true ∧
    (handlePlay sB.id stA).player.currentTime = 0 ∧
    (handlePlay sB.id stA).audio.src = sB.url :=
  play_switch_resets stA sA sB (by decide) (by decide) (by decide) (by decide) rfl

/-- Helper for C9: the names after one `handleFilesAdded` call are the old
names followed by the stripped file names, in order. -/
theorem handleFilesAdded_map_name (u : Nat → String) (objURL : File → String)
    (files : List File) (prev : List Song) :
    (handleFilesAdded u objURL files prev).map Song.name
      = prev.map Song.name ++ files.map (fun f => stripExt f.name) := by
  unfold handleFilesAdded
  rw [List.map_append, List.map_map]
  congr 1
  conv_rhs => rw [← List.enum_map_snd files, List.map_map]
  apply List.map_congr_left
  intro p _
  rfl

/-- Helper for C9: names after folding `handleFilesAdded` over indexed
batches of files. -/
theorem foldAdds_map_name (objURL : File → String) (uuid : Nat → Nat → String)
    (ps : List (Nat × List File)) (acc : List Song) :
    ((ps.foldl (fun acc p => handleFilesAdded (uuid p.1) objURL p.2 acc) acc).map Song.name)
      = acc.map Song.name ++ (ps.map Prod.snd).flatten.map (fun f => stripExt f.name) := by
  induction ps generalizing acc with
  | nil => simp
  | cons p t ih =>
    rw [List.foldl_cons, ih, handleFilesAdded_map_name]
    simp [List.append_assoc]

/-- C9: across any sequence of `addSongs` calls from the empty list, the list
length is the total file count and the names are the stripped file names in
call order then file order; a single call leaves the pre-existing songs
unchanged in place, appends one song per file at the end in input order,
and grows the length by the file count. -/
theorem addSongs_appends (uuid : Nat → Nat → String) (u : Nat → String)
    (objURL : File → String) (batches : List (List File))
    (files : List File) (prev : List Song) :
    (runAdds uuid objURL batches).length = (batches.map List.length).sum ∧
    (runAdds uuid objURL batches).map Song.name
      = batches.flatten.map (fun f => stripExt f.name) ∧
    (handleFilesAdded u objURL files prev).take prev.length = prev ∧
    (handleFilesAdded u objURL files prev).map Song.name
      = prev.map Song.name ++ files.map (fun f => stripExt f.name) ∧
    (handleFilesAdded u objURL files prev).length = prev.length + files.length := by
  have hnames : (runAdds uuid objURL batches).map Song.name
      = batches.flatten.map (fun f => stripExt f.name) := by
    unfold runAdds
    rw [foldAdds_map_name]
    simp [List.enum_map_snd]
  refine ⟨?_, hnames, ?_, handleFilesAdded_map_name u objURL files prev, ?_⟩
  · have h1 := congrArg List.length hnames
    rw [List.length_map, List.length_map] at h1
    rw [h1]
    exact List.length_flatten batches
  · simp only [handleFilesAdded]
    exact List.take_left prev _
  · simp [handleFilesAdded, List.enum_length]

/-- C3: `moveSong` is a silent no-op when the two ids coincide or when either
id is absent from the list; it always returns a list, never an error. -/
theorem moveSong_noop (items : List Song) (a b : String)
    (h : a = b ∨ (∀ s ∈ items, s.id ≠ a) ∨ (∀ s ∈ items, s.id ≠ b)) :
    moveSong a b items = items := by
  unfold moveSong handleDragEnd
  dsimp only
  by_cases hab : a ≠ b
  · rw [if_pos hab]
    rcases h with h | h | h
    · exact absurd h hab
    · have hi : items.findIdx (fun i => i.id == a) = items.length :=
        List.findIdx_eq_length.mpr (fun x hx => by simp [h x hx])
      unfold arrayMove
      rw [dif_neg]
      rw [hi]
      omega
    · have hj : items.findIdx (fun i => i.id == b) = items.length :=
        List.findIdx_eq_length.mpr (fun x hx => by simp [h x hx])
      unfold arrayMove
      rw [dif_neg]
      rw [hj]
      omega
  · rw [if_neg hab]

/-- Witness for C3 at a concrete input (id absent from the list). -/
theorem moveSong_noop_witness :
    moveSong "z" "b" [sA, sB, sC] = [sA, sB, sC] :=
  moveSong_noop [sA, sB, sC] "z" "b" (Or.inr (Or.inl (by decide)))

/-- Helper: inserting within bounds is, up to permutation, consing. -/
theorem insertIdx_perm_cons (x : Song) :
    ∀ (n : Nat) (l : List Song), n ≤ l.length → List.Perm (l.insertIdx n x) (x :: l)
  | 0, l, _ => List.Perm.refl _
  | n + 1, [], h => by simp at h
  | n + 1, a :: l, h => by
    rw [List.insertIdx_succ_cons]
    exact List.Perm.trans
      (List.Perm.cons a (insertIdx_perm_cons x n l (Nat.le_of_succ_le_succ h)))
      (List.Perm.swap x a l)

/-- C2: when the two ids are distinct and both present, the move produces a
permutation of the same songs; the element previously at `id`'s index — the
song carrying `id` — now sits exactly at the index `targetId` occupied
before the move, and erasing it from the result gives the same list as
erasing it from the original, i.e. all other relative order is preserved. -/
theorem moveSong_relocates (items : List Song) (a b : String)
    (hne : a ≠ b)
    (hA : ∃ s ∈ items, s.id = a) (hB : ∃ s ∈ items, s.id = b) :
    List.Perm (moveSong a b items) items ∧
    (items[items.findIdx (fun s => s.id == a)]?).map Song.id = some a ∧
    (moveSong a b items)[items.findIdx (fun s => s.id == b)]?
      = items[items.findIdx (fun s => s.id == a)]? ∧
    (moveSong a b items).eraseIdx (items.findIdx (fun s => s.id == b))
      = items.eraseIdx (items.findIdx (fun s => s.id == a)) := by
  obtain ⟨sa, hsa, hsaid⟩ := hA
  obtain ⟨sb, hsb, hsbid⟩ := hB
  have hi : items.findIdx (fun s => s.id == a) < items.length :=
    List.findIdx_lt_length_of_exists ⟨sa, hsa, by simp [hsaid]⟩
  have hj : items.findIdx (fun s => s.id == b) < items.length :=
    List.findIdx_lt_length_of_exists ⟨sb, hsb, by simp [hsbid]⟩
  have hjle : items.findIdx (fun s => s.id == b) ≤
      (items.eraseIdx (items.findIdx (fun s => s.id == a))).length := by
    have := List.length_eraseIdx_add_one hi
    omega
  have hmove : moveSong a b items
      = (items.eraseIdx (items.findIdx (fun s => s.id == a))).insertIdx
          (items.findIdx (fun s => s.id == b))
          (items.get ⟨items.findIdx (fun s => s.id == a), hi⟩) := by
    unfold moveSong handleDragEnd
    dsimp only
    rw [if_pos hne]
    unfold arrayMove
    rw [dif_pos ⟨hi, hj⟩]
  have hgi : items[items.findIdx (fun s => s.id == a)]?
      = some (items.get ⟨items.findIdx (fun s => s.id == a), hi⟩) := by
    rw [List.getElem?_eq_getElem hi, List.get_eq_getElem]
  have hid : (items.get ⟨items.findIdx (fun s => s.id == a), hi⟩).id = a := by
    have hp := @List.findIdx_getElem Song (fun s => s.id == a) items hi
    rw [List.get_eq_getElem]
    exact beq_iff_eq.mp hp
  have hjlen : items.findIdx (fun s => s.id == b) <
      ((items.eraseIdx (items.findIdx (fun s => s.id == a))).insertIdx
        (items.findIdx (fun s => s.id == b))
        (items.get ⟨items.findIdx (fun s => s.id == a), hi⟩)).length := by
    rw [List.length_insertIdx _ _ hjle]
    omega
  refine ⟨?_, ?_, ?_, ?_⟩
  · rw [hmove]
    have p1 : List.Perm items
        (items.get ⟨items.findIdx (fun s => s.id == a), hi⟩ ::
          items.erase (items.get ⟨items.findIdx (fun s => s.id == a), hi⟩)) := by
      apply List.perm_cons_erase
      exact items.get_mem _ _
    have p2 : List.Perm
        (items.erase (items.get ⟨items.findIdx (fun s => s.id == a), hi⟩))
        (items.eraseIdx (items.findIdx (fun s => s.id == a))) := by
      rw [List.get_eq_getElem]
      exact List.erase_getElem hi
    exact (insertIdx_perm_cons _ _ _ hjle).trans
      ((p1.trans (p2.cons _)).symm)
  · rw [hgi, Option.map_some']
    rw [hid]
  · rw [hmove, hgi, List.getElem?_eq_getElem hjlen]
    congr 1
    exact List.getElem_insertIdx_self _ _ _ hjle
  · rw [hmove]
    exact List.eraseIdx_insertIdx _ _

/-- Witness for C2 at a concrete input: move song `a` onto song `c` in a
three-song list. -/
theorem moveSong_relocates_witness :
    List.Perm (moveSong "a" "c" [sA, sB, sC]) [sA, sB, sC] ∧
    ([sA, sB, sC][[sA, sB, sC].findIdx (fun s => s.id == "a")]?).map Song.id = some "a" ∧
    (moveSong "a" "c" [sA, sB, sC])[[sA, sB, sC].findIdx (fun s => s.id == "c")]?
      = [sA, sB, sC][[sA, sB, sC].findIdx (fun s => s.id == "a")]? ∧
    (moveSong "a" "c" [sA, sB, sC]).eraseIdx ([sA, sB, sC].findIdx (fun s => s.id == "c"))
      = [sA, sB, sC].eraseIdx ([sA, sB, sC].findIdx (fun s => s.id == "a")) :=
  moveSong_relocates [sA, sB, sC] "a" "c" (by decide) (by decide) (by decide)

/-- Helper for C1: a single dispatched event preserves the player invariant
"playing implies a current song id is set". -/
theorem step_preserves_playing_inv (s : AppState) (act : Action)
    (h : s.player.isPlaying = true → s.player.currentSongId ≠ none) :
    (step s act).player.isPlaying = true → (step s act).player.currentSongId ≠ none := by
  cases act with
  | play id =>
    unfold step handlePlay
    dsimp only
    cases hfind : s.songs.find? (fun song => song.id == id) with
    | none => exact h
    | some songToPlay =>
      dsimp only
      by_cases hcur : s.player.currentSongId = some id
      · rw [if_pos hcur]
        intro _
        simp [hcur]
      · rw [if_neg hcur]
        intro _
        simp
  | pause => intro hp; simp [step, handlePause] at hp
  | seek t => exact h
  | timeUpdate t => exact h
  | loadedMetadata d => exact h
  | ended => intro hp; simp [step, onEnded] at hp
  | filesAdded u o files => exact h
  | saveName i n => exact h
  | dragEnd i o => exact h

/-- Helper for C1: the invariant is preserved along any event sequence. -/
theorem run_preserves_playing_inv :
    ∀ (acts : List Action) (s : AppState),
      (s.player.isPlaying = true → s.player.currentSongId ≠ none) →
      ((run s acts).player.isPlaying = true → (run s acts).player.currentSongId ≠ none)
  | [], _, hs => hs
  | a :: t, s, hs => by
    unfold run
    rw [List.foldl_cons]
    exact run_preserves_playing_inv t (step s a) (step_preserves_playing_inv s a hs)

/-- C1: starting from the mounted state (player idle, no current song) over an
arbitrary song list, every state reachable by any sequence of play, pause,
seek, engine notifications and list operations satisfies the invariant:
`isPlaying = true` implies `currentSongId` is non-null. -/
theorem playing_implies_current_song (songs : List Song) (acts : List Action)
    (h : (run (initialState songs) acts).player.isPlaying = true) :
    (run (initialState songs) acts).player.currentSongId ≠ none :=
  run_preserves_playing_inv acts (initialState songs)
    (fun hp => by simp [initialState, initialPlayer] at hp) h

/-- Witness for C1: a concrete reachable state that is playing, and its
current song id is indeed set. -/
theorem playing_implies_current_song_witness :
    (run (initialState [sA]) [Action.play "a"]).player.isPlaying = true ∧
    (run (initialState [sA]) [Action.play "a"]).player.currentSongId ≠ none :=
  ⟨rfl, playing_implies_current_song [sA] [Action.play "a"] rfl⟩

end FelizNatal
